import Mathlib

/-!
Verification development for the Breakwind custom-scheme resource handler
(app/src/main/surfProtocolHandlers.ts): the transcode coordinator
(in-flight job table keyed by message id, worker lifecycle with idle
teardown), the resource locator with legacy-path migration, the cache-key
derivation, and the raw-query routing of the surf protocol handler.

JS strings are modelled as Lean Strings; the string predicates the source
uses (String.prototype.endsWith, regex prefix matching, URLSearchParams)
are re-implemented structurally over character lists so that all
definitions evaluate inside the kernel.  The filesystem, the worker and
the catalog are modelled as explicit state: an association list of files,
a log of posted jobs / resolutions / renames / catalog updates, and
boolean failure-injection oracles for the fallible external calls.
-/

namespace Breakwind

/-- Structural model of JS String.prototype.startsWith restricted to what
the source needs: does the second list occur at the head of the first. -/
def listHeadMatch : List Char → List Char → Bool
  | _, [] => true
  | [], _ :: _ => false
  | c :: cs, h :: hs => c == h && listHeadMatch cs hs

/-- Structural model of JS String.prototype.endsWith. -/
def strEndsWith (s suffix : String) : Bool :=
  let sl := s.toList
  let tl := suffix.toList
  sl.drop (sl.length - tl.length) == tl

/-- Model of node path.join for the shapes this code produces: a base
directory joined with a single segment (which may carry a leading slash,
as in generateCachedPath). -/
def pathJoin (a b : String) : String :=
  if listHeadMatch b.toList ['/'] then a ++ b else a ++ "/" ++ b

/-- The on-disk state: an association list from absolute path to file
content. -/
abbrev Fs := List (String × String)

def fsGet : Fs → String → Option String
  | [], _ => none
  | (k, v) :: rest, key => if k = key then some v else fsGet rest key

def fsDel : Fs → String → Fs
  | [], _ => []
  | (k, v) :: rest, key => if k = key then fsDel rest key else (k, v) :: fsDel rest key

def fsSet (fs : Fs) (key v : String) : Fs :=
  (key, v) :: fsDel fs key

/-! ## Image transcode coordinator

Embedding of the module-level state of surfProtocolHandlers.ts: the
imageProcessorHandles map, the imageProcessor worker reference and the
imageProcessorDeinitTimeout timer, together with observation logs (posted
jobs, resolved handles, worker starts and terminations). -/

/-- ImageProcessingOptions from the source: quality and maxDimension are
number | null. -/
structure ImageProcessingOptions where
  quality : Option Nat
  maxDimension : Option Nat
deriving DecidableEq

/-- generateCachedPath from the source: resource id, then the optional
quality suffix, then the optional maxDimension suffix, joined under the
cache directory. -/
def generateCachedPath (resourceId : String) (baseCacheDir : String)
    (options : ImageProcessingOptions) : String :=
  let cachedName := "/" ++ resourceId
  let cachedName :=
    match options.quality with
    | some q => cachedName ++ "_quality-" ++ toString q
    | none => cachedName
  let cachedName :=
    match options.maxDimension with
    | some m => cachedName ++ "_maxDimension-" ++ toString m
    | none => cachedName
  pathJoin baseCacheDir cachedName

/-- The parameter record handed to processImageWithWorker. -/
structure JobParams where
  imgPath : String
  savePath : String
  quality : Option Nat
  maxDimension : Option Nat
deriving DecidableEq

/-- Content of a Response object as far as the coordinator distinguishes
them: a success body or an error with status and message. -/
inductive RespContent where
  | ok (buffer : String)
  | err (status : Nat) (msg : String)
deriving DecidableEq

/-- One call of handle.resolve: which waiter was resolved, with which
content, and the serial number of the Response.clone() it received (each
clone call yields a fresh copy, so distinct serials mean distinct
response objects). -/
structure Resolution where
  waiter : Nat
  content : RespContent
  copy : Nat
deriving DecidableEq

/-- A message posted back by the image-processing worker. -/
structure WorkerMsg where
  messageID : String
  success : Bool
  buffer : String
  error : String
deriving DecidableEq

/-- The imageProcessorHandles map: message id to the list of registered
waiters (waiters carry a unique registration token instead of a promise
resolver). JS Map insertion order is kept: new keys go to the back and
new waiters to the back of their entry. -/
abbrev Handles := List (String × List Nat)

def handlesGet : Handles → String → Option (List Nat)
  | [], _ => none
  | (k, ws) :: rest, key => if k = key then some ws else handlesGet rest key

def handlesAppend : Handles → String → Nat → Handles
  | [], _, _ => []
  | (k, ws) :: rest, key, w =>
    if k = key then (k, ws ++ [w]) :: rest else (k, ws) :: handlesAppend rest key w

def handlesDel : Handles → String → Handles
  | [], _ => []
  | (k, ws) :: rest, key => if k = key then rest else (k, ws) :: handlesDel rest key

/-- Module-level mutable state of the coordinator plus observation logs. -/
structure CoordState where
  /-- imageProcessorHandles -/
  handles : Handles
  /-- imageProcessor !== null -/
  workerAlive : Bool
  /-- imageProcessorDeinitTimeout: the armed delay, if any -/
  deinitTimeout : Option Nat
  /-- fresh waiter tokens -/
  nextWaiter : Nat
  /-- fresh Response.clone serials -/
  nextClone : Nat
  /-- log of worker.postMessage calls: (params, messageID) -/
  posted : List (JobParams × String)
  /-- log of handle.resolve calls -/
  resolutions : List Resolution
  /-- number of times a worker was spawned -/
  inits : Nat
  /-- number of times a worker was terminated -/
  terminations : Nat
deriving DecidableEq

/-- resolve one waiter after another with clones of the same response,
consecutive clone serials starting at start. -/
def resolveAll (ws : List Nat) (c : RespContent) (start : Nat) : List Resolution :=
  match ws with
  | [] => []
  | w :: rest => ⟨w, c, start⟩ :: resolveAll rest c (start + 1)

/-- resolve every waiter of every entry, in table order. -/
def resolveEntries (hs : Handles) (c : RespContent) (start : Nat) : List Resolution :=
  match hs with
  | [] => []
  | (_, ws) :: rest => resolveAll ws c start ++ resolveEntries rest c (start + ws.length)

/-- total number of waiters in the table. -/
def totalWaiters : Handles → Nat
  | [] => 0
  | (_, ws) :: rest => ws.length + totalWaiters rest

/-- imageProcessorOnMessage: look up the handles for the message id (a
missing entry means the message is ignored), build one response, resolve
every waiter with its own clone, then delete the entry. -/
def imageProcessorOnMessage (result : WorkerMsg) (s : CoordState) : CoordState :=
  match handlesGet s.handles result.messageID with
  | none => s
  | some ws =>
    let response :=
      if result.success = false then
        RespContent.err 500 ("Image Processing Error: " ++ result.error)
      else RespContent.ok result.buffer
    { s with
      resolutions := s.resolutions ++ resolveAll ws response s.nextClone
      nextClone := s.nextClone + ws.length
      handles := handlesDel s.handles result.messageID }

/-- The response imageProcessorOnError resolves every open handle with. -/
def fatalResponse : RespContent :=
  RespContent.err 500 "Image Processing Error: Fatal error!"

/-- imageProcessorOnError: a fatal worker error resolves every open
handle of every entry with an error response and deletes all entries.
The imageProcessor reference itself is left untouched by the source. -/
def imageProcessorOnError (s : CoordState) : CoordState :=
  { s with
    resolutions := s.resolutions ++ resolveEntries s.handles fatalResponse s.nextClone
    nextClone := s.nextClone + totalWaiters s.handles
    handles := [] }

/-- initializeImageProcessor (renamed for this development): spawn the
worker and wire its listeners. -/
def setupImageProcessor (s : CoordState) : CoordState :=
  { s with workerAlive := true, inits := s.inits + 1 }

/-- deinitializeImageProcessor (renamed for this development): return if
no worker; if handles remain, re-arm the same 10000 ms delay and return;
otherwise terminate the worker and clear the timer. -/
def teardownImageProcessor (s : CoordState) : CoordState :=
  if s.workerAlive = false then s
  else if 0 < s.handles.length then { s with deinitTimeout := some 10000 }
  else
    { s with
      workerAlive := false
      terminations := s.terminations + 1
      deinitTimeout := none }

/-- processImageWithWorker: the message id is params.imgPath; append a
waiter to an existing entry, or create the entry and post the job; in
either case clear and re-arm the 10000 ms deinit timer. Returns the new
state and the registered waiter token (the returned promise). -/
def processImageWithWorker (params : JobParams) (s : CoordState) : CoordState × Nat :=
  let messageID := params.imgPath
  let w := s.nextWaiter
  let s1 :=
    match handlesGet s.handles messageID with
    | some _ =>
      { s with handles := handlesAppend s.handles messageID w, nextWaiter := w + 1 }
    | none =>
      { s with
        handles := s.handles ++ [(messageID, [w])]
        posted := s.posted ++ [(params, messageID)]
        nextWaiter := w + 1 }
  ({ s1 with deinitTimeout := some 10000 }, w)

/-- Outcome of surfProtocolHandleImages as far as the claims observe it. -/
inductive ImgOutcome where
  | direct (content : Option String)
  | cached (content : String)
  | pending (waiter : Nat)
deriving DecidableEq

/-- surfProtocolHandleImages: no transform parameters means the original
file is served; a present cache file is served directly; otherwise the
worker is spawned if absent and the job goes through
processImageWithWorker. Cache-directory creation and the response
headers do not affect any observed state and are elided. -/
def surfProtocolHandleImages (fs : Fs) (resourceId imgPath cacheDir : String)
    (options : ImageProcessingOptions) (s : CoordState) : ImgOutcome × CoordState :=
  if options.quality = none ∧ options.maxDimension = none then
    (.direct (fsGet fs imgPath), s)
  else
    let cachedPath := generateCachedPath resourceId cacheDir options
    match fsGet fs cachedPath with
    | some c => (.cached c, s)
    | none =>
      let s1 := if s.workerAlive = false then setupImageProcessor s else s
      let pr := processImageWithWorker
        ⟨imgPath, cachedPath, options.quality, options.maxDimension⟩ s1
      (.pending pr.2, pr.1)

/-- The event-loop steps that touch the coordinator state. -/
inductive Event where
  | submit (params : JobParams)
  | timerFire
  | message (m : WorkerMsg)
  | fatalError
deriving DecidableEq

/-- One event-loop step. submit is a transcode demand reaching the
worker path of surfProtocolHandleImages (spawn worker if absent, then
processImageWithWorker); timerFire consumes the armed deinit timer and
runs the teardown routine; message and fatalError are the two worker
listeners. -/
def step (s : CoordState) (ev : Event) : CoordState :=
  match ev with
  | .submit params =>
    let s1 := if s.workerAlive = false then setupImageProcessor s else s
    (processImageWithWorker params s1).1
  | .timerFire =>
    match s.deinitTimeout with
    | some _ => teardownImageProcessor { s with deinitTimeout := none }
    | none => s
  | .message m => imageProcessorOnMessage m s
  | .fatalError => imageProcessorOnError s

def run (s : CoordState) : List Event → CoordState
  | [] => s
  | ev :: evs => run (step s ev) evs

/-- n submissions of the same job, one after the other, before any
worker message arrives. -/
def submitN : Nat → JobParams → CoordState → CoordState
  | 0, _, s => s
  | n + 1, params, s => (processImageWithWorker params (submitN n params s)).1

/-- consecutive waiter tokens c, c+1, ..., c+n-1. -/
def idsFrom (c : Nat) : Nat → List Nat
  | 0 => []
  | n + 1 => c :: idsFrom (c + 1) n

/-- all waiter tokens currently registered in the table, in table order. -/
def liveIds : Handles → List Nat
  | [] => []
  | (_, ws) :: rest => ws ++ liveIds rest

/-- all waiter tokens already resolved. -/
def doneIds (s : CoordState) : List Nat :=
  s.resolutions.map (fun r => r.waiter)

/-- Coordinator invariant: no waiter token occurs twice among the live
and resolved tokens, and all tokens are below the freshness counter. -/
def CoordInv (s : CoordState) : Prop :=
  (liveIds s.handles ++ doneIds s).Nodup ∧
    ∀ w ∈ liveIds s.handles ++ doneIds s, w < s.nextWaiter

/-! ## Resource locator

Embedding of fetchFilePath, migrateResourceFile and fetchResourceFile.
The external helpers that are not part of this repository's sources
(isPathSafe, getResourceFileExtension, getResourceFileName, the SFFS
catalog) are abstract parameters of the environment, and the fallible
external calls (fs.rename, sffs.updateResource) carry failure-injection
oracles. -/

/-- The fields of an SFFSResource record this code reads. The metadata
fields that are merely copied into the update payload are elided. -/
structure SFFSResource where
  id : String
  path : Option String
  type : String
deriving DecidableEq

/-- Environment of the locator: the resources base directory and the
external collaborators. -/
structure LocEnv where
  /-- join(userData, sffs_backend, resources) -/
  base : String
  /-- getResourceFileExtension -/
  ext : String → String
  /-- getResourceFileName of the converted composite resource -/
  fname : SFFSResource → String
  /-- isPathSafe -/
  pathSafe : String → String → Bool
  /-- failure oracle for fs.rename -/
  renameFails : String → String → Bool
  /-- failure oracle for sffs.updateResource -/
  updateFails : Bool
  /-- useSFFSMain() returned an instance -/
  sffsAvailable : Bool

/-- Mutable effects of a locate call: the filesystem, the number of
renames performed, and the catalog updates issued (id, new path). -/
structure MigEffects where
  fs : Fs
  renames : Nat
  updates : List (String × String)
deriving DecidableEq

/-- What fetchFilePath hands back when it does not return null. -/
inductive FetchResult where
  | forbidden
  | ok (content : String)
deriving DecidableEq

/-- fetchFilePath: an unsafe path yields the Forbidden response; a
present file yields its bytes; a missing file makes net.fetch throw,
which the source catches and turns into null. -/
def fetchFilePath (env : LocEnv) (fs : Fs) (base filePath : String) : Option FetchResult :=
  if env.pathSafe base filePath = false then some .forbidden
  else
    match fsGet fs filePath with
    | some c => some (.ok c)
    | none => none

/-- The updateResource half of migrateResourceFile: skipped when there is
no record or no catalog; a failing update throws (some message). -/
def migrateUpdateStep (env : LocEnv) (newFilePath : String)
    (resource : Option SFFSResource) (e : MigEffects) : MigEffects × Option String :=
  match resource with
  | none => (e, none)
  | some r =>
    if env.sffsAvailable = false then (e, none)
    else if env.updateFails = true then (e, some "updateResource failed")
    else ({ e with updates := e.updates ++ [(r.id, newFilePath)] }, none)

/-- migrateResourceFile: rename when the paths differ (a failing or
impossible rename throws), then update the catalog record. The second
component is the thrown error, if any; effects performed before the
throw persist. -/
def migrateResourceFile (env : LocEnv) (legacyFilePath newFilePath : String)
    (resource : Option SFFSResource) (e : MigEffects) : MigEffects × Option String :=
  if legacyFilePath ≠ newFilePath then
    if env.renameFails legacyFilePath newFilePath = true then (e, some "rename failed")
    else
      match fsGet e.fs legacyFilePath with
      | none => (e, some "rename failed: no such file")
      | some c =>
        migrateUpdateStep env newFilePath resource
          { e with
            fs := fsSet (fsDel e.fs legacyFilePath) newFilePath c
            renames := e.renames + 1 }
  else migrateUpdateStep env newFilePath resource e

/-- Outcome of fetchResourceFile: the response together with the path it
reported. -/
inductive LocOutcome where
  | found (content : String) (filePath : String)
  | forbidden (filePath : String)
  | notFound (filePath : String)
deriving DecidableEq

def toOutcome (fr : FetchResult) (p : String) : LocOutcome :=
  match fr with
  | .forbidden => .forbidden p
  | .ok c => .found c p

/-- getResourceFileExtension(resource.type), or the empty string when
there is no record. -/
def extensionOf (env : LocEnv) (resource : Option SFFSResource) : String :=
  match resource with
  | some r => env.ext r.type
  | none => ""

/-- getResourceFileName of the record, or the resource id when there is
no record. -/
def newFileNameOf (env : LocEnv) (resourceId : String) (resource : Option SFFSResource) : String :=
  match resource with
  | some r => env.fname r
  | none => resourceId

/-- The current-scheme path: base joined with name.extension, or with the
bare id when the extension is empty. -/
def newFilePathOf (env : LocEnv) (resourceId : String) (resource : Option SFFSResource) : String :=
  let extension := extensionOf env resource
  pathJoin env.base
    (if extension ≠ "" then newFileNameOf env resourceId resource ++ "." ++ extension
     else resourceId)

/-- The legacy path: base joined with the bare resource id. -/
def legacyPathOf (env : LocEnv) (resourceId : String) : String :=
  pathJoin env.base resourceId

/-- The stored path of the record, when the source attempts it: the
record exists, has a path, and the path ends in the expected extension
or in .json. -/
def storedPathCandidate (env : LocEnv) (resource : Option SFFSResource) : Option String :=
  match resource with
  | none => none
  | some r =>
    match r.path with
    | none => none
    | some p =>
      if strEndsWith p ("." ++ extensionOf env resource) || strEndsWith p ".json" then some p
      else none

/-- Steps 2 and 3 of fetchResourceFile: the current-scheme path (with a
catalog refresh when the stored path disagrees), then the legacy path
(with the rename-and-update migration), then Not Found. A throw inside
migrateResourceFile is caught by the enclosing try and reported as Not
Found. -/
def fetchResourceFileSteps23 (env : LocEnv) (resourceId : String)
    (resource : Option SFFSResource) (e : MigEffects) : LocOutcome × MigEffects :=
  let filePath := pathJoin env.base resourceId
  let newFilePath := newFilePathOf env resourceId resource
  match fetchFilePath env e.fs env.base newFilePath with
  | some fr =>
    if (resource.bind SFFSResource.path) ≠ some newFilePath then
      match migrateResourceFile env newFilePath newFilePath resource e with
      | (e2, none) => (toOutcome fr newFilePath, e2)
      | (e2, some _) => (.notFound filePath, e2)
    else (toOutcome fr newFilePath, e)
  | none =>
    let legacyFilePath := legacyPathOf env resourceId
    match fetchFilePath env e.fs env.base legacyFilePath with
    | some fr =>
      match migrateResourceFile env legacyFilePath newFilePath resource e with
      | (e2, none) => (toOutcome fr legacyFilePath, e2)
      | (e2, some _) => (.notFound filePath, e2)
    | none => (.notFound filePath, e)

/-- fetchResourceFile: try the stored path of the record first (only
when it carries the expected extension or .json), then fall through to
the current-scheme and legacy paths. -/
def fetchResourceFile (env : LocEnv) (resourceId : String)
    (resource : Option SFFSResource) (e : MigEffects) : LocOutcome × MigEffects :=
  match storedPathCandidate env resource with
  | some p =>
    match fetchFilePath env e.fs env.base p with
    | some fr => (toOutcome fr p, e)
    | none => fetchResourceFileSteps23 env resourceId resource e
  | none => fetchResourceFileSteps23 env resourceId resource e

/-- The stored-path candidate, if attempted, did not resolve. -/
def storedFetchMiss (env : LocEnv) (resource : Option SFFSResource) (e : MigEffects) : Prop :=
  ∀ p, storedPathCandidate env resource = some p → fetchFilePath env e.fs env.base p = none

/-! ## surf protocol routing

Embedding of the direct-resource-path match and the raw query flag of
surfProtocolHandler. The regex and URLSearchParams are modelled over
character lists; percent-decoding is elided (no claim depends on it). -/

/-- Match a literal head against a list, returning the remainder. -/
def takeAfterHead : List Char → List Char → Option (List Char)
  | [], rest => some rest
  | _ :: _, [] => none
  | h :: hs, c :: cs => if c = h then takeAfterHead hs cs else none

/-- The source regex on req.url anchored at the start: the literal
surf://surf/resource/ followed by one or more characters other than
slash and question mark (the captured id). -/
def matchResourceId (url : String) : Option String :=
  match takeAfterHead "surf://surf/resource/".toList url.toList with
  | none => none
  | some rest =>
    let id := rest.takeWhile (fun c => !(c == '/' || c == '?'))
    if id.isEmpty then none else some (String.mk id)

/-- Split a character list at every occurrence of the separator. -/
def splitOnChar (sep : Char) (l : List Char) : List (List Char) :=
  match l with
  | [] => [[]]
  | c :: rest =>
    let r := splitOnChar sep rest
    if c = sep then [] :: r
    else
      match r with
      | [] => [[c]]
      | h :: t => (c :: h) :: t

/-- The portion after the first question mark, if any. -/
def afterQMark : List Char → Option (List Char)
  | [] => none
  | '?' :: rest => some rest
  | _ :: rest => afterQMark rest

/-- One key=value pair of the query string; a bare key reads as the
empty value, and the value keeps any further equals signs. -/
def parseParam (kv : List Char) : String × String :=
  let k := kv.takeWhile (fun c => !(c == '='))
  match kv.drop k.length with
  | [] => (String.mk k, "")
  | _ :: v => (String.mk k, String.mk v)

/-- URLSearchParams of the request url: the query is what follows the
first question mark before any fragment; empty segments are skipped. -/
def searchParams (url : String) : List (String × String) :=
  let beforeHash := url.toList.takeWhile (fun c => !(c == '#'))
  match afterQMark beforeHash with
  | none => []
  | some q => ((splitOnChar '&' q).filter (fun seg => !seg.isEmpty)).map parseParam

/-- searchParams.has -/
def spHas (ps : List (String × String)) (key : String) : Bool :=
  ps.any (fun p => p.1 == key)

/-- searchParams.get (null when absent) -/
def spGet (ps : List (String × String)) (key : String) : Option String :=
  (ps.find? (fun p => p.1 == key)).map (fun p => p.2)

/-- Where surfProtocolHandler routes a request. -/
inductive Route where
  | resourceData (id : String)
  | fileRequest
deriving DecidableEq

/-- surfProtocolHandler: a url matching the direct resource pattern goes
to the raw resource-data handler exactly when the raw parameter is
present and its value is not the literal false; everything else goes to
the file-request handler. -/
def surfProtocolHandler (url : String) : Route :=
  match matchResourceId url with
  | some id =>
    let ps := searchParams url
    if spHas ps "raw" = true ∧ ¬spGet ps "raw" = some "false" then Route.resourceData id
    else Route.fileRequest
  | none => Route.fileRequest

/-! ## Concrete instances used by counterexamples and witnesses -/

/-- Empty coordinator state with a live worker. -/
def st0 : CoordState :=
  ⟨[], true, none, 0, 0, [], [], 0, 0⟩

/-- A job for resource r at quality 70. -/
def pEx : JobParams :=
  ⟨"/base/r", "/base/cache/r_quality-70", some 70, none⟩

/-- Coordinator state with jobs outstanding for two keys A and B. -/
def stF : CoordState :=
  ⟨[("A", [0]), ("B", [1])], true, some 10000, 2, 0, [], [], 1, 0⟩

/-- Locator environment with no failures: every path is safe, renames
and catalog updates succeed, the catalog is available. -/
def locEnvOk : LocEnv :=
  ⟨"b", fun _ => "png", fun _ => "f", fun _ _ => true, fun _ _ => false, false, true⟩

/-- Same environment but every rename fails. -/
def locEnvRenameFail : LocEnv :=
  { locEnvOk with renameFails := fun _ _ => true }

/-- Same environment but the catalog update fails. -/
def locEnvUpdateFail : LocEnv :=
  { locEnvOk with updateFails := true }

/-- A record with no stored path, of image type. -/
def rEx : SFFSResource :=
  ⟨"r1", none, "image"⟩

/-- Initial effects: the backing file lives only at the legacy path. -/
def eEx : MigEffects :=
  ⟨[("b/r1", "DATA")], 0, []⟩

/-! ## Helper lemmas -/

theorem handlesGet_append_of_none (hs : Handles) (key : String) (ws : List Nat)
    (h : handlesGet hs key = none) : handlesGet (hs ++ [(key, ws)]) key = some ws := by
  induction hs with
  | nil => simp [handlesGet]
  | cons p rest ih =>
    obtain ⟨k, ws'⟩ := p
    by_cases hk : k = key
    · simp [handlesGet, hk] at h
    · simp only [handlesGet, List.cons_append, if_neg hk] at h ⊢
      exact ih h

theorem handlesAppend_append_of_none (hs : Handles) (key : String) (ws : List Nat) (w : Nat)
    (h : handlesGet hs key = none) :
    handlesAppend (hs ++ [(key, ws)]) key w = hs ++ [(key, ws ++ [w])] := by
  induction hs with
  | nil => simp [handlesAppend]
  | cons p rest ih =>
    obtain ⟨k, ws'⟩ := p
    by_cases hk : k = key
    · simp [handlesGet, hk] at h
    · simp only [handlesGet, if_neg hk] at h
      simp only [List.cons_append, handlesAppend, if_neg hk]
      exact congrArg _ (ih h)

theorem handlesDel_append_of_none (hs : Handles) (key : String) (ws : List Nat)
    (h : handlesGet hs key = none) :
    handlesDel (hs ++ [(key, ws)]) key = hs := by
  induction hs with
  | nil => simp [handlesDel]
  | cons p rest ih =>
    obtain ⟨k, ws'⟩ := p
    by_cases hk : k = key
    · simp [handlesGet, hk] at h
    · simp only [handlesGet, if_neg hk] at h
      simp only [List.cons_append, handlesDel, if_neg hk]
      exact congrArg _ (ih h)

theorem handlesGet_handlesAppend (hs : Handles) (key : String) (ws : List Nat) (w : Nat)
    (h : handlesGet hs key = some ws) :
    handlesGet (handlesAppend hs key w) key = some (ws ++ [w]) := by
  induction hs with
  | nil => simp [handlesGet] at h
  | cons p rest ih =>
    obtain ⟨k, ws'⟩ := p
    by_cases hk : k = key
    · simp only [handlesGet, if_pos hk] at h
      injection h with h2
      subst h2
      simp only [handlesAppend, if_pos hk, handlesGet, if_pos hk]
    · simp only [handlesGet, if_neg hk] at h
      simp only [handlesAppend, if_neg hk, handlesGet, if_neg hk, ih h]

theorem idsFrom_concat (n c : Nat) : idsFrom c (n + 1) = idsFrom c n ++ [c + n] := by
  induction n generalizing c with
  | zero => simp [idsFrom]
  | succ n ih =>
    show c :: idsFrom (c + 1) (n + 1) = (c :: idsFrom (c + 1) n) ++ [c + (n + 1)]
    rw [ih (c + 1)]
    simp [Nat.add_assoc, Nat.add_comm 1 n]

theorem idsFrom_length (c n : Nat) : (idsFrom c n).length = n := by
  induction n generalizing c with
  | zero => rfl
  | succ n ih => simp [idsFrom, ih]

theorem mem_idsFrom (w c n : Nat) : w ∈ idsFrom c n ↔ c ≤ w ∧ w < c + n := by
  induction n generalizing c with
  | zero => simp [idsFrom]
  | succ n ih =>
    simp only [idsFrom, List.mem_cons, ih]
    omega

theorem idsFrom_nodup (c n : Nat) : (idsFrom c n).Nodup := by
  induction n generalizing c with
  | zero => exact List.nodup_nil
  | succ n ih =>
    refine List.nodup_cons.mpr ⟨?_, ih (c + 1)⟩
    rw [mem_idsFrom]
    omega

theorem resolveAll_length (ws : List Nat) (c : RespContent) (k : Nat) :
    (resolveAll ws c k).length = ws.length := by
  induction ws generalizing k with
  | nil => rfl
  | cons w rest ih => simp [resolveAll, ih]

theorem resolveAll_content (ws : List Nat) (c : RespContent) (k : Nat) :
    ∀ r ∈ resolveAll ws c k, r.content = c := by
  induction ws generalizing k with
  | nil => intro r hr; simp [resolveAll] at hr
  | cons w rest ih =>
    intro r hr
    rcases List.mem_cons.mp hr with h | h
    · rw [h]
    · exact ih (k + 1) r h

theorem resolveAll_map_waiter (ws : List Nat) (c : RespContent) (k : Nat) :
    (resolveAll ws c k).map (fun r => r.waiter) = ws := by
  induction ws generalizing k with
  | nil => rfl
  | cons w rest ih => simp [resolveAll, ih]

theorem resolveAll_map_copy (ws : List Nat) (c : RespContent) (k : Nat) :
    (resolveAll ws c k).map (fun r => r.copy) = idsFrom k ws.length := by
  induction ws generalizing k with
  | nil => rfl
  | cons w rest ih => simp [resolveAll, idsFrom, ih]

theorem resolveEntries_map_waiter (hs : Handles) (c : RespContent) (k : Nat) :
    (resolveEntries hs c k).map (fun r => r.waiter) = liveIds hs := by
  induction hs generalizing k with
  | nil => rfl
  | cons p rest ih =>
    obtain ⟨key, ws⟩ := p
    simp [resolveEntries, liveIds, resolveAll_map_waiter, ih]

theorem resolveEntries_content (hs : Handles) (c : RespContent) (k : Nat) :
    ∀ r ∈ resolveEntries hs c k, r.content = c := by
  induction hs generalizing k with
  | nil => intro r hr; simp [resolveEntries] at hr
  | cons p rest ih =>
    obtain ⟨key, ws⟩ := p
    intro r hr
    rcases List.mem_append.mp hr with h | h
    · exact resolveAll_content ws c k r h
    · exact ih (k + ws.length) r h

theorem fsGet_fsSet_self (fs : Fs) (key v : String) : fsGet (fsSet fs key v) key = some v := by
  simp [fsSet, fsGet]

theorem fetchFilePath_none (env : LocEnv) (fs : Fs) (base p : String)
    (hps : env.pathSafe base p = true) (hget : fsGet fs p = none) :
    fetchFilePath env fs base p = none := by
  simp [fetchFilePath, hps, hget]

theorem fetchFilePath_ok (env : LocEnv) (fs : Fs) (base p : String) (c : String)
    (hps : env.pathSafe base p = true) (hget : fsGet fs p = some c) :
    fetchFilePath env fs base p = some (.ok c) := by
  simp [fetchFilePath, hps, hget]

theorem fetchFilePath_okContent (env : LocEnv) (fs : Fs) (base p : String) (c : String)
    (h : fetchFilePath env fs base p = some (.ok c)) : fsGet fs p = some c := by
  unfold fetchFilePath at h
  by_cases hps : env.pathSafe base p = false
  · simp [hps] at h
  · simp only [hps, if_false] at h
    cases hget : fsGet fs p with
    | none => rw [hget] at h; cases h
    | some c2 => rw [hget] at h; cases h; rfl

/-! ## Claim C1 -/

/-- C1 counterexample: the cache filename for resource r at quality 70 is
the stated string, but after a cache-miss request the in-flight table is
keyed by the source image path, not by that cache key; a second request
for the same resource with different transform parameters (quality 30,
hence a different cache key) is deduplicated onto the first job, so only
one job is ever posted — the cache key is not the in-flight
deduplication key. -/
theorem claim1_counterexample :
    generateCachedPath "r" "/base/cache" ⟨some 70, none⟩ = "/base/cache/r_quality-70" ∧
    (surfProtocolHandleImages [] "r" "/base/r" "/base/cache" ⟨some 70, none⟩ st0).2.handles
      = [("/base/r", [0])] ∧
    handlesGet
      (surfProtocolHandleImages [] "r" "/base/r" "/base/cache" ⟨some 70, none⟩ st0).2.handles
      "/base/cache/r_quality-70" = none ∧
    (surfProtocolHandleImages [] "r" "/base/r" "/base/cache" ⟨some 30, none⟩
        (surfProtocolHandleImages [] "r" "/base/r" "/base/cache" ⟨some 70, none⟩ st0).2).2.posted
      = (surfProtocolHandleImages [] "r" "/base/r" "/base/cache" ⟨some 70, none⟩ st0).2.posted ∧
    ¬generateCachedPath "r" "/base/cache" ⟨some 30, none⟩
      = generateCachedPath "r" "/base/cache" ⟨some 70, none⟩ := by
  decide

/-- C1 (amended): the on-disk cache filename is derived deterministically
from the resource id and the transform parameters — the resource id
followed by the quality suffix when present and then the maxDimension
suffix when present, in that fixed order — but the in-flight-job
deduplication key is the source image path, not the cache key: after any
cache-miss transcode request the in-flight table holds an entry keyed by
imgPath. -/
theorem claim1_amended (resourceId baseCacheDir : String)
    (fs : Fs) (imgPath : String) (s : CoordState) (options : ImageProcessingOptions)
    (hopt : ¬(options.quality = none ∧ options.maxDimension = none))
    (hmiss : fsGet fs (generateCachedPath resourceId baseCacheDir options) = none) :
    (∀ q m, generateCachedPath resourceId baseCacheDir ⟨some q, some m⟩
      = pathJoin baseCacheDir
          ("/" ++ resourceId ++ "_quality-" ++ toString q ++ "_maxDimension-" ++ toString m)) ∧
    (∀ q, generateCachedPath resourceId baseCacheDir ⟨some q, none⟩
      = pathJoin baseCacheDir ("/" ++ resourceId ++ "_quality-" ++ toString q)) ∧
    (∀ m, generateCachedPath resourceId baseCacheDir ⟨none, some m⟩
      = pathJoin baseCacheDir ("/" ++ resourceId ++ "_maxDimension-" ++ toString m)) ∧
    (∃ ws, handlesGet
        (surfProtocolHandleImages fs resourceId imgPath baseCacheDir options s).2.handles
        imgPath = some ws) := by
  refine ⟨fun q m => rfl, fun q => rfl, fun m => rfl, ?_⟩
  unfold surfProtocolHandleImages
  rw [if_neg hopt]
  simp only [hmiss]
  set s1 := if s.workerAlive = false then setupImageProcessor s else s with hs1
  have hh : s1.handles = s.handles := by
    rw [hs1]; by_cases hw : s.workerAlive = false <;> simp [hw, setupImageProcessor]
  unfold processImageWithWorker
  cases hg : handlesGet s1.handles imgPath with
  | some ws =>
    simp only [hg]
    exact ⟨ws ++ [s1.nextWaiter], handlesGet_handlesAppend _ _ _ _ hg⟩
  | none =>
    simp only [hg]
    exact ⟨[s1.nextWaiter], handlesGet_append_of_none _ _ _ hg⟩

/-- C1 amended, witness at a concrete input. -/
theorem claim1_witness :
    (∀ q, generateCachedPath "r" "/base/cache" ⟨some q, none⟩
      = pathJoin "/base/cache" ("/" ++ "r" ++ "_quality-" ++ toString q)) ∧
    (∃ ws, handlesGet
        (surfProtocolHandleImages [] "r" "/base/r" "/base/cache" ⟨some 70, none⟩ st0).2.handles
        "/base/r" = some ws) := by
  have h := claim1_amended "r" "/base/cache" [] "/base/r" st0 ⟨some 70, none⟩
    (by decide) (by decide)
  exact ⟨h.2.1, h.2.2.2⟩

/-! ## Claim C7 -/

/-- C7: when the cache file for the key already exists on disk, its bytes
are returned directly and the coordinator state is returned unchanged —
no in-flight job is created, nothing is posted to the worker, and the
worker is not spawned. -/
theorem claim7_theorem (fs : Fs) (resourceId imgPath cacheDir : String)
    (options : ImageProcessingOptions) (s : CoordState) (c : String)
    (hopt : ¬(options.quality = none ∧ options.maxDimension = none))
    (hcache : fsGet fs (generateCachedPath resourceId cacheDir options) = some c) :
    surfProtocolHandleImages fs resourceId imgPath cacheDir options s = (.cached c, s) := by
  unfold surfProtocolHandleImages
  rw [if_neg hopt]
  simp only [hcache]

/-- C7 witness at a concrete input. -/
theorem claim7_witness :
    surfProtocolHandleImages [("/base/cache/r_quality-70", "CACHED")] "r" "/base/r"
      "/base/cache" ⟨some 70, none⟩ st0 = (.cached "CACHED", st0) :=
  claim7_theorem _ "r" "/base/r" "/base/cache" ⟨some 70, none⟩ st0 "CACHED"
    (by decide) (by decide)

/-! ## Claim C9 -/

/-- C9 counterexample: for the direct-resource url with query raw=false
the raw parameter is present, yet the request is routed to the
file-request handler (the document shell), not to raw resource-byte
serving — presence alone does not trigger byte serving. -/
theorem claim9_counterexample :
    matchResourceId "surf://surf/resource/abc?raw=false" = some "abc" ∧
    spHas (searchParams "surf://surf/resource/abc?raw=false") "raw" = true ∧
    surfProtocolHandler "surf://surf/resource/abc?raw=false" = Route.fileRequest := by
  decide

/-- C9 (amended): for every request whose url matches the direct resource
path, the raw query parameter triggers raw resource-byte serving exactly
when it is present with a value other than the literal false (a bare raw
flag reads as the empty value and triggers). -/
theorem claim9_amended (url id : String)
    (hmatch : matchResourceId url = some id)
    (hhas : spHas (searchParams url) "raw" = true)
    (hval : ¬spGet (searchParams url) "raw" = some "false") :
    surfProtocolHandler url = Route.resourceData id := by
  unfold surfProtocolHandler
  rw [hmatch]
  simp only [hhas, hval]
  simp

/-- C9 amended, witness at a concrete input. -/
theorem claim9_witness :
    surfProtocolHandler "surf://surf/resource/abc?raw=1" = Route.resourceData "abc" :=
  claim9_amended "surf://surf/resource/abc?raw=1" "abc" (by decide) (by decide) (by decide)

/-! ## Claim C2 -/

theorem processImageWithWorker_terminations (params : JobParams) (s : CoordState) :
    (processImageWithWorker params s).1.terminations = s.terminations := by
  unfold processImageWithWorker
  cases hg : handlesGet s.handles params.imgPath <;> simp [hg]

theorem processImageWithWorker_inits (params : JobParams) (s : CoordState) :
    (processImageWithWorker params s).1.inits = s.inits := by
  unfold processImageWithWorker
  cases hg : handlesGet s.handles params.imgPath <;> simp [hg]

theorem processImageWithWorker_deinitTimeout (params : JobParams) (s : CoordState) :
    (processImageWithWorker params s).1.deinitTimeout = some 10000 := by
  unfold processImageWithWorker
  cases hg : handlesGet s.handles params.imgPath <;> simp [hg]

theorem submitN_spec (params : JobParams) (s : CoordState)
    (h : handlesGet s.handles params.imgPath = none) :
    ∀ n, submitN (n + 1) params s =
      { s with
        handles := s.handles ++ [(params.imgPath, idsFrom s.nextWaiter (n + 1))]
        posted := s.posted ++ [(params, params.imgPath)]
        nextWaiter := s.nextWaiter + (n + 1)
        deinitTimeout := some 10000 } := by
  intro n
  induction n with
  | zero =>
    show (processImageWithWorker params (submitN 0 params s)).1 = _
    show (processImageWithWorker params s).1 = _
    unfold processImageWithWorker
    simp only [h]
    simp [idsFrom]
  | succ n ih =>
    show (processImageWithWorker params (submitN (n + 1) params s)).1 = _
    rw [ih]
    unfold processImageWithWorker
    have hg := handlesGet_append_of_none s.handles params.imgPath
      (idsFrom s.nextWaiter (n + 1)) h
    simp only [hg]
    rw [handlesAppend_append_of_none s.handles params.imgPath
      (idsFrom s.nextWaiter (n + 1)) (s.nextWaiter + (n + 1)) h]
    rw [← idsFrom_concat (n + 1) s.nextWaiter]
    simp [Nat.add_assoc]

/-- C2: issuing N concurrent transcode requests (N at least 1) for the
same deduplication key before any completes posts exactly one job to the
worker and registers all N callers as waiters of the single in-flight
entry; on worker success all N waiters are resolved, each receiving the
success content through its own response clone (pairwise-distinct clone
serials, so no shared response object), and the entry is removed. -/
theorem claim2_theorem (params : JobParams) (s : CoordState) (n : Nat) (b e : String)
    (hn : 1 ≤ n) (hfresh : handlesGet s.handles params.imgPath = none) :
    (submitN n params s).posted = s.posted ++ [(params, params.imgPath)] ∧
    handlesGet (submitN n params s).handles params.imgPath
      = some (idsFrom s.nextWaiter n) ∧
    (imageProcessorOnMessage ⟨params.imgPath, true, b, e⟩ (submitN n params s)).resolutions
      = s.resolutions ++ resolveAll (idsFrom s.nextWaiter n) (RespContent.ok b) s.nextClone ∧
    (resolveAll (idsFrom s.nextWaiter n) (RespContent.ok b) s.nextClone).length = n ∧
    (∀ r ∈ resolveAll (idsFrom s.nextWaiter n) (RespContent.ok b) s.nextClone,
        r.content = RespContent.ok b) ∧
    ((resolveAll (idsFrom s.nextWaiter n) (RespContent.ok b) s.nextClone).map
        (fun r => r.copy)).Nodup ∧
    handlesGet
      (imageProcessorOnMessage ⟨params.imgPath, true, b, e⟩ (submitN n params s)).handles
      params.imgPath = none := by
  obtain ⟨m, rfl⟩ : ∃ m, n = m + 1 := ⟨n - 1, by omega⟩
  rw [submitN_spec params s hfresh m]
  have hg := handlesGet_append_of_none s.handles params.imgPath
    (idsFrom s.nextWaiter (m + 1)) hfresh
  refine ⟨rfl, hg, ?_, ?_, resolveAll_content _ _ _, ?_, ?_⟩
  · unfold imageProcessorOnMessage
    simp only [hg]
    rfl
  · rw [resolveAll_length, idsFrom_length]
  · rw [resolveAll_map_copy, idsFrom_length]
    exact idsFrom_nodup _ _
  · unfold imageProcessorOnMessage
    simp only [hg]
    show handlesGet (handlesDel (s.handles ++ [(params.imgPath, _)]) params.imgPath)
      params.imgPath = none
    rw [handlesDel_append_of_none s.handles params.imgPath _ hfresh]
    exact hfresh

/-- C2 witness at a concrete input: two requests, one posted job, both
waiters resolved and the entry removed. -/
theorem claim2_witness :
    (submitN 2 pEx st0).posted = st0.posted ++ [(pEx, pEx.imgPath)] ∧
    handlesGet
      (imageProcessorOnMessage ⟨pEx.imgPath, true, "BYTES", ""⟩ (submitN 2 pEx st0)).handles
      pEx.imgPath = none := by
  have h := claim2_theorem pEx st0 2 "BYTES" "" (by decide) (by decide)
  exact ⟨h.1, h.2.2.2.2.2.2⟩

/-! ## Claim C3 -/

/-- C3 counterexample: with jobs outstanding for keys A and B, a fatal
worker error resolves both waiters with errors and clears the table, but
the worker reference survives: workerAlive stays true, so the next
transcode demand does not start a fresh worker (the spawn counter is
unchanged) — the worker is not treated as dead. -/
theorem claim3_counterexample :
    (step stF Event.fatalError).handles = [] ∧
    (step stF Event.fatalError).resolutions
      = [⟨0, fatalResponse, 0⟩, ⟨1, fatalResponse, 1⟩] ∧
    (step stF Event.fatalError).workerAlive = true ∧
    (step (step stF Event.fatalError) (Event.submit pEx)).inits = stF.inits := by
  decide

/-- C3 (amended): a fatal worker error resolves every waiter of every
outstanding in-flight job, across all keys, with the fatal error
response and clears the entire job table; however the worker reference
is not cleared — it stays alive, so the next transcode demand reuses it
instead of starting a fresh worker. -/
theorem claim3_amended (s : CoordState) (h : s.workerAlive = true) :
    (step s Event.fatalError).handles = [] ∧
    (step s Event.fatalError).resolutions
      = s.resolutions ++ resolveEntries s.handles fatalResponse s.nextClone ∧
    (resolveEntries s.handles fatalResponse s.nextClone).map (fun r => r.waiter)
      = liveIds s.handles ∧
    (∀ r ∈ resolveEntries s.handles fatalResponse s.nextClone, r.content = fatalResponse) ∧
    (step s Event.fatalError).workerAlive = true ∧
    ∀ params, (step (step s Event.fatalError) (Event.submit params)).inits = s.inits := by
  refine ⟨rfl, rfl, resolveEntries_map_waiter _ _ _, resolveEntries_content _ _ _, h, ?_⟩
  intro params
  show (step (imageProcessorOnError s) (Event.submit params)).inits = s.inits
  have hw : (imageProcessorOnError s).workerAlive = true := h
  simp only [step]
  rw [processImageWithWorker_inits]
  simp [hw]
  rfl

/-- C3 amended, witness at a concrete input. -/
theorem claim3_witness :
    (step stF Event.fatalError).handles = [] ∧
    (step stF Event.fatalError).workerAlive = true ∧
    (step (step stF Event.fatalError) (Event.submit pEx)).inits = stF.inits := by
  have h := claim3_amended stF (by decide)
  exact ⟨h.1, h.2.2.2.2.1, h.2.2.2.2.2 pEx⟩

/-! ## Claim C8 -/

/-- C8: the worker is never torn down while in-flight jobs remain — a
timer expiry with a non-empty job table only re-arms the same 10000 ms
delay; every job submission re-arms the teardown timer; the worker is
released exactly when the timer fires with an empty job table; and the
termination counter can only change in a step whose starting job table
is empty. -/
theorem claim8_theorem (s : CoordState) (d : Nat) (h : s.workerAlive = true) :
    (¬s.handles = [] → s.deinitTimeout = some d →
      step s Event.timerFire = { s with deinitTimeout := some 10000 }) ∧
    (∀ params, (step s (Event.submit params)).deinitTimeout = some 10000) ∧
    (s.handles = [] → s.deinitTimeout = some d →
      step s Event.timerFire
        = { s with workerAlive := false, terminations := s.terminations + 1,
                   deinitTimeout := none }) ∧
    (∀ ev, ¬(step s ev).terminations = s.terminations → s.handles = []) := by
  refine ⟨?_, ?_, ?_, ?_⟩
  · intro hne ht
    have hl : 0 < s.handles.length := List.length_pos.mpr hne
    simp only [step, ht, teardownImageProcessor, h]
    simp [hl]
  · intro params
    simp only [step]
    rw [processImageWithWorker_deinitTimeout]
  · intro he ht
    simp only [step, ht, teardownImageProcessor, h]
    simp [he]
  · intro ev
    cases ev with
    | submit params =>
      intro hab
      exfalso
      apply hab
      simp only [step]
      rw [processImageWithWorker_terminations]
      by_cases hw : s.workerAlive = false <;> simp [hw, setupImageProcessor]
    | timerFire =>
      intro hab
      cases ht : s.deinitTimeout with
      | none => exact absurd (by simp [step, ht]) hab
      | some d2 =>
        by_cases hl : 0 < s.handles.length
        · exact absurd (by simp [step, ht, teardownImageProcessor, h, hl]) hab
        · exact List.length_eq_zero.mp (by omega)
    | message m =>
      intro hab
      exfalso
      apply hab
      unfold step imageProcessorOnMessage
      cases hg : handlesGet s.handles m.messageID <;> simp [hg]
    | fatalError =>
      intro hab
      exact absurd rfl hab

/-- C8 witness at a concrete input: with jobs outstanding the timer
expiry re-arms the delay, and a submission re-arms the timer. -/
theorem claim8_witness :
    step stF Event.timerFire = { stF with deinitTimeout := some 10000 } ∧
    (step stF (Event.submit pEx)).deinitTimeout = some 10000 := by
  have h := claim8_theorem stF 10000 (by decide)
  exact ⟨h.1 (by decide) (by decide), h.2.1 pEx⟩

/-! ## Locator lemmas -/

theorem prodEqOfSndNone {α β : Type} (x : α × Option β) (h : x.2 = none) :
    x = (x.1, none) := by
  obtain ⟨a, b⟩ := x
  simp only at h
  rw [h]

theorem fetchResourceFile_step1 (env : LocEnv) (resourceId : String)
    (resource : Option SFFSResource) (e : MigEffects) (p : String) (fr : FetchResult)
    (hspc : storedPathCandidate env resource = some p)
    (hf : fetchFilePath env e.fs env.base p = some fr) :
    fetchResourceFile env resourceId resource e = (toOutcome fr p, e) := by
  unfold fetchResourceFile
  simp only [hspc, hf]

theorem fetchResourceFile_eq_steps23 (env : LocEnv) (resourceId : String)
    (resource : Option SFFSResource) (e : MigEffects)
    (hmiss : storedFetchMiss env resource e) :
    fetchResourceFile env resourceId resource e
      = fetchResourceFileSteps23 env resourceId resource e := by
  unfold fetchResourceFile
  cases hspc : storedPathCandidate env resource with
  | none => rfl
  | some p => simp only [hmiss p hspc]

theorem steps23_eval_step2 (env : LocEnv) (resourceId : String)
    (resource : Option SFFSResource) (e : MigEffects) (fr : FetchResult)
    (h2 : fetchFilePath env e.fs env.base (newFilePathOf env resourceId resource) = some fr) :
    fetchResourceFileSteps23 env resourceId resource e
      = if (resource.bind SFFSResource.path) ≠ some (newFilePathOf env resourceId resource) then
          match migrateResourceFile env (newFilePathOf env resourceId resource)
              (newFilePathOf env resourceId resource) resource e with
          | (e2, none) => (toOutcome fr (newFilePathOf env resourceId resource), e2)
          | (e2, some _) => (.notFound (pathJoin env.base resourceId), e2)
        else (toOutcome fr (newFilePathOf env resourceId resource), e) := by
  unfold fetchResourceFileSteps23
  simp only [h2]

theorem steps23_eval_step3 (env : LocEnv) (resourceId : String)
    (resource : Option SFFSResource) (e : MigEffects) (fr : FetchResult)
    (h2 : fetchFilePath env e.fs env.base (newFilePathOf env resourceId resource) = none)
    (h3 : fetchFilePath env e.fs env.base (legacyPathOf env resourceId) = some fr) :
    fetchResourceFileSteps23 env resourceId resource e
      = match migrateResourceFile env (legacyPathOf env resourceId)
            (newFilePathOf env resourceId resource) resource e with
        | (e2, none) => (toOutcome fr (legacyPathOf env resourceId), e2)
        | (e2, some _) => (.notFound (pathJoin env.base resourceId), e2) := by
  unfold fetchResourceFileSteps23
  simp only [h2, h3]

theorem steps23_eval_none (env : LocEnv) (resourceId : String)
    (resource : Option SFFSResource) (e : MigEffects)
    (h2 : fetchFilePath env e.fs env.base (newFilePathOf env resourceId resource) = none)
    (h3 : fetchFilePath env e.fs env.base (legacyPathOf env resourceId) = none) :
    fetchResourceFileSteps23 env resourceId resource e
      = (.notFound (pathJoin env.base resourceId), e) := by
  unfold fetchResourceFileSteps23
  simp only [h2, h3]

theorem migrateUpdateStep_snd_none (env : LocEnv) (p : String)
    (resource : Option SFFSResource) (e : MigEffects) (hup : env.updateFails = false) :
    (migrateUpdateStep env p resource e).2 = none := by
  cases resource with
  | none => rfl
  | some r => by_cases hs : env.sffsAvailable = false <;> simp [migrateUpdateStep, hs, hup]

theorem migrateUpdateStep_fs (env : LocEnv) (p : String)
    (resource : Option SFFSResource) (e : MigEffects) :
    (migrateUpdateStep env p resource e).1.fs = e.fs := by
  cases resource with
  | none => rfl
  | some r =>
    by_cases hs : env.sffsAvailable = false <;>
      by_cases hu : env.updateFails = true <;> simp [migrateUpdateStep, hs, hu]

theorem migrateUpdateStep_renames (env : LocEnv) (p : String)
    (resource : Option SFFSResource) (e : MigEffects) :
    (migrateUpdateStep env p resource e).1.renames = e.renames := by
  cases resource with
  | none => rfl
  | some r =>
    by_cases hs : env.sffsAvailable = false <;>
      by_cases hu : env.updateFails = true <;> simp [migrateUpdateStep, hs, hu]

theorem migrateUpdateStep_updates_some (env : LocEnv) (p : String) (r : SFFSResource)
    (e : MigEffects) (hs : env.sffsAvailable = true) (hup : env.updateFails = false) :
    (migrateUpdateStep env p (some r) e).1.updates = e.updates ++ [(r.id, p)] := by
  simp [migrateUpdateStep, hs, hup]

theorem migrateResourceFile_noMove (env : LocEnv) (p : String)
    (resource : Option SFFSResource) (e : MigEffects) :
    migrateResourceFile env p p resource e = migrateUpdateStep env p resource e := by
  unfold migrateResourceFile
  simp

theorem migrateResourceFile_move (env : LocEnv) (legacy newP : String)
    (resource : Option SFFSResource) (e : MigEffects) (c : String)
    (hne : legacy ≠ newP) (hrnf : env.renameFails legacy newP = false)
    (hsrc : fsGet e.fs legacy = some c) :
    migrateResourceFile env legacy newP resource e
      = migrateUpdateStep env newP resource
          { e with fs := fsSet (fsDel e.fs legacy) newP c, renames := e.renames + 1 } := by
  unfold migrateResourceFile
  rw [if_pos hne]
  simp only [hrnf, hsrc]
  simp

theorem migrateResourceFile_snd_none (env : LocEnv) (legacy newP : String)
    (resource : Option SFFSResource) (e : MigEffects) (c : String)
    (hrnf : env.renameFails legacy newP = false) (hup : env.updateFails = false)
    (hsrc : fsGet e.fs legacy = some c) :
    (migrateResourceFile env legacy newP resource e).2 = none := by
  by_cases hne : legacy = newP
  · rw [hne, migrateResourceFile_noMove]
    exact migrateUpdateStep_snd_none env newP resource e hup
  · rw [migrateResourceFile_move env legacy newP resource e c hne hrnf hsrc]
    exact migrateUpdateStep_snd_none env newP resource _ hup

theorem fetchResourceFile_legacyHit (env : LocEnv) (resourceId : String)
    (resource : Option SFFSResource) (e : MigEffects) (c : String)
    (hmiss : storedFetchMiss env resource e)
    (h2 : fetchFilePath env e.fs env.base (newFilePathOf env resourceId resource) = none)
    (h3 : fetchFilePath env e.fs env.base (legacyPathOf env resourceId) = some (.ok c))
    (hsnd : (migrateResourceFile env (legacyPathOf env resourceId)
        (newFilePathOf env resourceId resource) resource e).2 = none) :
    fetchResourceFile env resourceId resource e
      = (.found c (legacyPathOf env resourceId),
          (migrateResourceFile env (legacyPathOf env resourceId)
            (newFilePathOf env resourceId resource) resource e).1) := by
  rw [fetchResourceFile_eq_steps23 env resourceId resource e hmiss,
      steps23_eval_step3 env resourceId resource e (.ok c) h2 h3,
      prodEqOfSndNone _ hsnd]
  rfl

/-! ## Claim C4 -/

/-- C4 counterexample: the bytes of resource r1 are found at the legacy
path (the fetch succeeds), but the triggered migration fails (the rename
fails), and the locate call reports Not Found instead of succeeding with
the found bytes — the migration failure does change the outcome of the
call. -/
theorem claim4_counterexample :
    fetchFilePath locEnvRenameFail eEx.fs locEnvRenameFail.base
      (legacyPathOf locEnvRenameFail "r1") = some (.ok "DATA") ∧
    fetchResourceFile locEnvRenameFail "r1" (some rEx) eEx
      = (.notFound (pathJoin locEnvRenameFail.base "r1"), eEx) := by
  decide

/-- C4 (amended): when the bytes were found at the current-scheme path in
step 2 or the legacy path in step 3 but the triggered migration (rename
or catalog update) throws, the failure is caught and the locate call
returns Not Found — the found bytes are not returned; effects performed
before the failure persist. -/
theorem claim4_amended (env : LocEnv) (resourceId : String)
    (resource : Option SFFSResource) (e : MigEffects)
    (hmiss : storedFetchMiss env resource e) :
    (∀ fr e2 m,
      fetchFilePath env e.fs env.base (newFilePathOf env resourceId resource) = some fr →
      ¬(resource.bind SFFSResource.path) = some (newFilePathOf env resourceId resource) →
      migrateResourceFile env (newFilePathOf env resourceId resource)
        (newFilePathOf env resourceId resource) resource e = (e2, some m) →
      fetchResourceFile env resourceId resource e
        = (.notFound (pathJoin env.base resourceId), e2)) ∧
    (∀ fr e2 m,
      fetchFilePath env e.fs env.base (newFilePathOf env resourceId resource) = none →
      fetchFilePath env e.fs env.base (legacyPathOf env resourceId) = some fr →
      migrateResourceFile env (legacyPathOf env resourceId)
        (newFilePathOf env resourceId resource) resource e = (e2, some m) →
      fetchResourceFile env resourceId resource e
        = (.notFound (pathJoin env.base resourceId), e2)) := by
  constructor
  · intro fr e2 m h2 hne hmig
    rw [fetchResourceFile_eq_steps23 env resourceId resource e hmiss,
        steps23_eval_step2 env resourceId resource e fr h2, if_pos hne, hmig]
  · intro fr e2 m h2 h3 hmig
    rw [fetchResourceFile_eq_steps23 env resourceId resource e hmiss,
        steps23_eval_step3 env resourceId resource e fr h2 h3, hmig]

/-- C4 amended, witness at a concrete input. -/
theorem claim4_witness :
    fetchResourceFile locEnvRenameFail "r1" (some rEx) eEx
      = (.notFound (pathJoin locEnvRenameFail.base "r1"), eEx) := by
  have h := claim4_amended locEnvRenameFail "r1" (some rEx) eEx
    (fun p hp => by
      rw [show storedPathCandidate locEnvRenameFail (some rEx) = none by decide] at hp
      exact Option.noConfusion hp)
  exact h.2 (.ok "DATA") eEx "rename failed" (by decide) (by decide) (by decide)

/-! ## Claim C5 -/

/-- C5: for every resource id and optional record the locator tries the
candidates in this exact order, stopping at the first that resolves:
(1) the stored path of the record, attempted only when it ends in the
expected extension for its kind or in .json; (2) the current-scheme path
built from the normalized file name and extension; (3) the legacy path
(the bare resource id), whose success triggers the migration renaming
the legacy file to the current-scheme path and updating the catalog
record to point at it; and when none resolves the result is Not Found.
(Stated under succeeding rename/update collaborators.) -/
theorem claim5_theorem (env : LocEnv) (resourceId : String)
    (resource : Option SFFSResource) (e : MigEffects)
    (hrn : ∀ a b, env.renameFails a b = false) (hup : env.updateFails = false) :
    (∀ p fr, storedPathCandidate env resource = some p →
      fetchFilePath env e.fs env.base p = some fr →
      fetchResourceFile env resourceId resource e = (toOutcome fr p, e)) ∧
    (∀ fr, storedFetchMiss env resource e →
      fetchFilePath env e.fs env.base (newFilePathOf env resourceId resource) = some fr →
      (fetchResourceFile env resourceId resource e).1
        = toOutcome fr (newFilePathOf env resourceId resource)) ∧
    (∀ c, storedFetchMiss env resource e →
      fetchFilePath env e.fs env.base (newFilePathOf env resourceId resource) = none →
      fetchFilePath env e.fs env.base (legacyPathOf env resourceId) = some (.ok c) →
      (fetchResourceFile env resourceId resource e).1
        = .found c (legacyPathOf env resourceId) ∧
      (fetchResourceFile env resourceId resource e).2
        = (migrateResourceFile env (legacyPathOf env resourceId)
            (newFilePathOf env resourceId resource) resource e).1 ∧
      (¬legacyPathOf env resourceId = newFilePathOf env resourceId resource →
        fsGet (fetchResourceFile env resourceId resource e).2.fs
          (newFilePathOf env resourceId resource) = some c ∧
        (fetchResourceFile env resourceId resource e).2.renames = e.renames + 1 ∧
        (∀ r, resource = some r → env.sffsAvailable = true →
          (fetchResourceFile env resourceId resource e).2.updates
            = e.updates ++ [(r.id, newFilePathOf env resourceId resource)]))) ∧
    (storedFetchMiss env resource e →
      fetchFilePath env e.fs env.base (newFilePathOf env resourceId resource) = none →
      fetchFilePath env e.fs env.base (legacyPathOf env resourceId) = none →
      fetchResourceFile env resourceId resource e
        = (.notFound (pathJoin env.base resourceId), e)) := by
  refine ⟨?_, ?_, ?_, ?_⟩
  · intro p fr hspc hf
    exact fetchResourceFile_step1 env resourceId resource e p fr hspc hf
  · intro fr hmiss h2
    rw [fetchResourceFile_eq_steps23 env resourceId resource e hmiss,
        steps23_eval_step2 env resourceId resource e fr h2]
    by_cases hne : (resource.bind SFFSResource.path)
        = some (newFilePathOf env resourceId resource)
    · rw [if_neg (by simp [hne])]
    · rw [if_pos hne]
      have hsnd : (migrateResourceFile env (newFilePathOf env resourceId resource)
          (newFilePathOf env resourceId resource) resource e).2 = none := by
        rw [migrateResourceFile_noMove]
        exact migrateUpdateStep_snd_none env _ resource e hup
      rw [prodEqOfSndNone _ hsnd]
  · intro c hmiss h2 h3
    have hsrc : fsGet e.fs (legacyPathOf env resourceId) = some c :=
      fetchFilePath_okContent env e.fs env.base (legacyPathOf env resourceId) c h3
    have hsnd : (migrateResourceFile env (legacyPathOf env resourceId)
        (newFilePathOf env resourceId resource) resource e).2 = none :=
      migrateResourceFile_snd_none env _ _ resource e c (hrn _ _) hup hsrc
    have heval : fetchResourceFile env resourceId resource e
        = (toOutcome (.ok c) (legacyPathOf env resourceId),
            (migrateResourceFile env (legacyPathOf env resourceId)
              (newFilePathOf env resourceId resource) resource e).1) := by
      rw [fetchResourceFile_eq_steps23 env resourceId resource e hmiss,
          steps23_eval_step3 env resourceId resource e (.ok c) h2 h3,
          prodEqOfSndNone _ hsnd]
    rw [heval]
    refine ⟨rfl, rfl, ?_⟩
    intro hne
    rw [migrateResourceFile_move env _ _ resource e c hne (hrn _ _) hsrc]
    refine ⟨?_, ?_, ?_⟩
    · rw [migrateUpdateStep_fs]
      exact fsGet_fsSet_self _ _ _
    · rw [migrateUpdateStep_renames]
    · intro r hr hs
      subst hr
      rw [migrateUpdateStep_updates_some env _ r _ hs hup]
  · intro hmiss h2 h3
    rw [fetchResourceFile_eq_steps23 env resourceId resource e hmiss,
        steps23_eval_none env resourceId resource e h2 h3]

/-- C5 witness at a concrete input: the legacy-path fallback resolves and
triggers the rename-and-update migration. -/
theorem claim5_witness :
    (fetchResourceFile locEnvOk "r1" (some rEx) eEx).1
      = .found "DATA" (legacyPathOf locEnvOk "r1") ∧
    (fetchResourceFile locEnvOk "r1" (some rEx) eEx).2.renames = eEx.renames + 1 := by
  have h := claim5_theorem locEnvOk "r1" (some rEx) eEx (fun a b => rfl) rfl
  have h3 := h.2.2.1 "DATA"
    (fun p hp => by
      rw [show storedPathCandidate locEnvOk (some rEx) = none by decide] at hp
      exact Option.noConfusion hp)
    (by decide) (by decide)
  exact ⟨h3.1, (h3.2.2 (by decide)).2.1⟩

/-! ## Claim C6 -/

/-- C6: for a resource whose backing file initially exists only at the
legacy path, two locate calls perform exactly one filesystem rename in
total: the first call renames the legacy file to the current-scheme path
(and updates the catalog record), and the second call — with the updated
record — finds the file at the current-scheme path through the stored
path and performs no further rename. -/
theorem claim6_theorem (env : LocEnv) (resourceId : String) (r : SFFSResource)
    (e : MigEffects) (c : String)
    (hps : ∀ a b, env.pathSafe a b = true)
    (hrn : ∀ a b, env.renameFails a b = false)
    (hup : env.updateFails = false)
    (hsffs : env.sffsAvailable = true)
    (hsc : storedPathCandidate env (some r) = none)
    (hne : ¬legacyPathOf env resourceId = newFilePathOf env resourceId (some r))
    (hleg : fsGet e.fs (legacyPathOf env resourceId) = some c)
    (hnew : fsGet e.fs (newFilePathOf env resourceId (some r)) = none)
    (hend : storedPathCandidate env
        (some { r with path := some (newFilePathOf env resourceId (some r)) })
      = some (newFilePathOf env resourceId (some r))) :
    (fetchResourceFile env resourceId (some r) e).1
      = .found c (legacyPathOf env resourceId) ∧
    (fetchResourceFile env resourceId (some r) e).2.renames = e.renames + 1 ∧
    (fetchResourceFile env resourceId (some r) e).2.updates
      = e.updates ++ [(r.id, newFilePathOf env resourceId (some r))] ∧
    (fetchResourceFile env resourceId
        (some { r with path := some (newFilePathOf env resourceId (some r)) })
        (fetchResourceFile env resourceId (some r) e).2).1
      = .found c (newFilePathOf env resourceId (some r)) ∧
    (fetchResourceFile env resourceId
        (some { r with path := some (newFilePathOf env resourceId (some r)) })
        (fetchResourceFile env resourceId (some r) e).2).2.renames
      = e.renames + 1 := by
  have hmiss1 : storedFetchMiss env (some r) e := fun p hp => by
    rw [hsc] at hp
    exact Option.noConfusion hp
  have h2 : fetchFilePath env e.fs env.base (newFilePathOf env resourceId (some r)) = none :=
    fetchFilePath_none env e.fs env.base _ (hps _ _) hnew
  have h3 : fetchFilePath env e.fs env.base (legacyPathOf env resourceId)
      = some (.ok c) :=
    fetchFilePath_ok env e.fs env.base _ c (hps _ _) hleg
  have hmove := migrateResourceFile_move env (legacyPathOf env resourceId)
    (newFilePathOf env resourceId (some r)) (some r) e c hne (hrn _ _) hleg
  have hsnd := migrateResourceFile_snd_none env (legacyPathOf env resourceId)
    (newFilePathOf env resourceId (some r)) (some r) e c (hrn _ _) hup hleg
  have heval1 := fetchResourceFile_legacyHit env resourceId (some r) e c hmiss1 h2 h3 hsnd
  have hren1 : (fetchResourceFile env resourceId (some r) e).2.renames = e.renames + 1 := by
    rw [heval1]
    show (migrateResourceFile env (legacyPathOf env resourceId)
      (newFilePathOf env resourceId (some r)) (some r) e).1.renames = e.renames + 1
    rw [hmove, migrateUpdateStep_renames]
  have hfs1 : fsGet (fetchResourceFile env resourceId (some r) e).2.fs
      (newFilePathOf env resourceId (some r)) = some c := by
    rw [heval1]
    show fsGet (migrateResourceFile env (legacyPathOf env resourceId)
      (newFilePathOf env resourceId (some r)) (some r) e).1.fs
      (newFilePathOf env resourceId (some r)) = some c
    rw [hmove, migrateUpdateStep_fs]
    exact fsGet_fsSet_self _ _ _
  have heval2 := fetchResourceFile_step1 env resourceId
    (some { r with path := some (newFilePathOf env resourceId (some r)) })
    (fetchResourceFile env resourceId (some r) e).2
    (newFilePathOf env resourceId (some r)) (.ok c) hend
    (fetchFilePath_ok env _ env.base _ c (hps _ _) hfs1)
  refine ⟨by rw [heval1], hren1, ?_, by rw [heval2]; rfl, by rw [heval2]; exact hren1⟩
  rw [heval1]
  show (migrateResourceFile env (legacyPathOf env resourceId)
    (newFilePathOf env resourceId (some r)) (some r) e).1.updates
    = e.updates ++ [(r.id, newFilePathOf env resourceId (some r))]
  rw [hmove, migrateUpdateStep_updates_some env _ r _ hsffs hup]

/-! ## Claim C10: invariant machinery -/

theorem liveIds_append (a b : Handles) : liveIds (a ++ b) = liveIds a ++ liveIds b := by
  induction a with
  | nil => rfl
  | cons p rest ih =>
    obtain ⟨k, ws⟩ := p
    show ws ++ liveIds (rest ++ b) = (ws ++ liveIds rest) ++ liveIds b
    rw [ih, List.append_assoc]

theorem liveIds_handlesAppend (hs : Handles) (key : String) (w : Nat) (ws : List Nat)
    (h : handlesGet hs key = some ws) :
    List.Perm (liveIds (handlesAppend hs key w)) (w :: liveIds hs) := by
  induction hs with
  | nil => simp [handlesGet] at h
  | cons p rest ih =>
    obtain ⟨k, ws'⟩ := p
    by_cases hk : k = key
    · simp only [handlesAppend, if_pos hk, liveIds]
      exact List.Perm.append_right (liveIds rest) List.perm_append_comm
    · simp only [handlesGet, if_neg hk] at h
      simp only [handlesAppend, if_neg hk, liveIds]
      have h1 := (ih h).append_left ws'
      refine h1.trans ?_
      exact List.perm_middle

theorem liveIds_handlesDel (hs : Handles) (key : String) (ws : List Nat)
    (h : handlesGet hs key = some ws) :
    List.Perm (liveIds hs) (ws ++ liveIds (handlesDel hs key)) := by
  induction hs with
  | nil => simp [handlesGet] at h
  | cons p rest ih =>
    obtain ⟨k, ws'⟩ := p
    by_cases hk : k = key
    · simp only [handlesGet, if_pos hk] at h
      injection h with h2
      subst h2
      simp only [handlesDel, if_pos hk, liveIds]
      exact List.Perm.refl _
    · simp only [handlesGet, if_neg hk] at h
      simp only [handlesDel, if_neg hk, liveIds]
      have h1 := (ih h).append_left ws'
      refine h1.trans ?_
      have h2 : List.Perm ((ws' ++ ws) ++ liveIds (handlesDel rest key))
          ((ws ++ ws') ++ liveIds (handlesDel rest key)) :=
        List.Perm.append_right _ List.perm_append_comm
      rw [List.append_assoc, List.append_assoc] at h2
      exact h2

theorem coordInvOfPerm (s s2 : CoordState)
    (hperm : List.Perm (liveIds s2.handles ++ doneIds s2) (liveIds s.handles ++ doneIds s))
    (hnw : s.nextWaiter ≤ s2.nextWaiter) (h : CoordInv s) : CoordInv s2 := by
  obtain ⟨hnd, hlt⟩ := h
  refine ⟨hperm.symm.nodup hnd, ?_⟩
  intro x hx
  exact lt_of_lt_of_le (hlt x (hperm.mem_iff.mp hx)) hnw

theorem coordInvOfPermCons (s s2 : CoordState)
    (hperm : List.Perm (liveIds s2.handles ++ doneIds s2)
      (s.nextWaiter :: (liveIds s.handles ++ doneIds s)))
    (hnw : s2.nextWaiter = s.nextWaiter + 1) (h : CoordInv s) : CoordInv s2 := by
  obtain ⟨hnd, hlt⟩ := h
  have hwmem : s.nextWaiter ∉ liveIds s.handles ++ doneIds s := fun hm =>
    absurd (hlt _ hm) (lt_irrefl _)
  refine ⟨hperm.symm.nodup (List.nodup_cons.mpr ⟨hwmem, hnd⟩), ?_⟩
  intro x hx
  rw [hnw]
  rcases List.mem_cons.mp (hperm.mem_iff.mp hx) with h1 | h1
  · omega
  · have := hlt x h1
    omega

theorem processInv (params : JobParams) (s : CoordState) (h : CoordInv s) :
    CoordInv (processImageWithWorker params s).1 := by
  unfold processImageWithWorker
  cases hg : handlesGet s.handles params.imgPath with
  | none =>
    simp only [hg]
    refine coordInvOfPermCons s _ ?_ rfl h
    show List.Perm (liveIds (s.handles ++ [(params.imgPath, [s.nextWaiter])]) ++ doneIds s)
      (s.nextWaiter :: (liveIds s.handles ++ doneIds s))
    rw [liveIds_append]
    show List.Perm ((liveIds s.handles ++ [s.nextWaiter]) ++ doneIds s)
      (s.nextWaiter :: (liveIds s.handles ++ doneIds s))
    have h1 : List.Perm (liveIds s.handles ++ [s.nextWaiter])
        (s.nextWaiter :: liveIds s.handles) := List.perm_append_comm
    exact h1.append_right (doneIds s)
  | some ws =>
    simp only [hg]
    refine coordInvOfPermCons s _ ?_ rfl h
    show List.Perm (liveIds (handlesAppend s.handles params.imgPath s.nextWaiter) ++ doneIds s)
      (s.nextWaiter :: (liveIds s.handles ++ doneIds s))
    exact (liveIds_handlesAppend s.handles params.imgPath s.nextWaiter ws hg).append_right
      (doneIds s)

theorem stepInv (s : CoordState) (ev : Event) (h : CoordInv s) : CoordInv (step s ev) := by
  obtain ⟨hnd, hlt⟩ := h
  cases ev with
  | submit params =>
    apply processInv
    by_cases hw : s.workerAlive = false
    · rw [if_pos hw]
      exact ⟨hnd, hlt⟩
    · rw [if_neg hw]
      exact ⟨hnd, hlt⟩
  | timerFire =>
    cases ht : s.deinitTimeout with
    | none =>
      simp only [step, ht]
      exact ⟨hnd, hlt⟩
    | some d =>
      simp only [step, ht, teardownImageProcessor]
      split
      · exact ⟨hnd, hlt⟩
      · split
        · exact ⟨hnd, hlt⟩
        · exact ⟨hnd, hlt⟩
  | message m =>
    show CoordInv (imageProcessorOnMessage m s)
    unfold imageProcessorOnMessage
    cases hg : handlesGet s.handles m.messageID with
    | none =>
      simp only [hg]
      exact ⟨hnd, hlt⟩
    | some ws =>
      simp only [hg]
      refine coordInvOfPerm s _ ?_ (le_refl _) ⟨hnd, hlt⟩
      have hdone : (s.resolutions ++ resolveAll ws
          (if m.success = false then
            RespContent.err 500 ("Image Processing Error: " ++ m.error)
          else RespContent.ok m.buffer) s.nextClone).map (fun r => r.waiter)
          = doneIds s ++ ws := by
        rw [List.map_append, resolveAll_map_waiter]
        rfl
      show List.Perm (liveIds (handlesDel s.handles m.messageID)
        ++ (s.resolutions ++ resolveAll ws _ s.nextClone).map (fun r => r.waiter))
        (liveIds s.handles ++ doneIds s)
      rw [hdone]
      have hdel := liveIds_handlesDel s.handles m.messageID ws hg
      have c1 : List.Perm
          (liveIds (handlesDel s.handles m.messageID) ++ (doneIds s ++ ws))
          (ws ++ (liveIds (handlesDel s.handles m.messageID) ++ doneIds s)) := by
        rw [← List.append_assoc]
        exact List.perm_append_comm
      have c2 : List.Perm (liveIds s.handles ++ doneIds s)
          (ws ++ (liveIds (handlesDel s.handles m.messageID) ++ doneIds s)) := by
        have h2 := hdel.append_right (doneIds s)
        rw [List.append_assoc] at h2
        exact h2
      exact c1.trans c2.symm
  | fatalError =>
    show CoordInv (imageProcessorOnError s)
    refine coordInvOfPerm s _ ?_ (le_refl _) ⟨hnd, hlt⟩
    have hdone : (s.resolutions ++ resolveEntries s.handles fatalResponse s.nextClone).map
        (fun r => r.waiter) = doneIds s ++ liveIds s.handles := by
      rw [List.map_append, resolveEntries_map_waiter]
      rfl
    show List.Perm
      ((s.resolutions ++ resolveEntries s.handles fatalResponse s.nextClone).map
          (fun r => r.waiter))
      (liveIds s.handles ++ doneIds s)
    rw [hdone]
    exact List.perm_append_comm

theorem runInv (evs : List Event) (s : CoordState) (h : CoordInv s) :
    CoordInv (run s evs) := by
  induction evs generalizing s with
  | nil => exact h
  | cons ev rest ih => exact ih (step s ev) (stepInv s ev h)

/-- C10: waiters are resolved at most once — a worker completion message
whose id has no entry in the handle table leaves the state unchanged (it
is ignored without effect); when an entry exists, its deletion happens in
the same step that resolves its waiters; and along any event sequence
from a state satisfying the coordinator invariant, no waiter token ever
appears twice among the resolved waiters. -/
theorem claim10_theorem :
    (∀ (m : WorkerMsg) (s : CoordState),
      handlesGet s.handles m.messageID = none → imageProcessorOnMessage m s = s) ∧
    (∀ (m : WorkerMsg) (s : CoordState) (ws : List Nat),
      handlesGet s.handles m.messageID = some ws →
      (imageProcessorOnMessage m s).handles = handlesDel s.handles m.messageID ∧
      (imageProcessorOnMessage m s).resolutions.map (fun r => r.waiter)
        = doneIds s ++ ws) ∧
    (∀ (s : CoordState) (evs : List Event), CoordInv s → (doneIds (run s evs)).Nodup) := by
  refine ⟨?_, ?_, ?_⟩
  · intro m s hg
    unfold imageProcessorOnMessage
    simp only [hg]
  · intro m s ws hg
    unfold imageProcessorOnMessage
    simp only [hg]
    refine ⟨by trivial, ?_⟩
    show (s.resolutions ++ resolveAll ws _ s.nextClone).map (fun r => r.waiter)
      = doneIds s ++ ws
    rw [List.map_append, resolveAll_map_waiter]
    rfl
  · intro s evs hinv
    have h := (runInv evs s hinv).1
    exact h.of_append_right

/-- C10 witness at a concrete input: an unknown-id message is a no-op,
and a trace in which the same completion message arrives twice still
resolves every waiter at most once. -/
theorem claim10_witness :
    imageProcessorOnMessage ⟨"k", true, "b", ""⟩ st0 = st0 ∧
    (doneIds (run st0 [Event.submit pEx, Event.message ⟨"/base/r", true, "B", ""⟩,
      Event.message ⟨"/base/r", true, "B", ""⟩])).Nodup := by
  have h := claim10_theorem
  exact ⟨h.1 ⟨"k", true, "b", ""⟩ st0 (by decide),
    h.2.2 st0 _ ⟨List.nodup_nil, fun w hw => absurd hw (List.not_mem_nil w)⟩⟩

/-- C6 witness at a concrete input. -/
theorem claim6_witness :
    (fetchResourceFile locEnvOk "r1" (some rEx) eEx).1
      = .found "DATA" (legacyPathOf locEnvOk "r1") ∧
    (fetchResourceFile locEnvOk "r1" (some rEx) eEx).2.renames = eEx.renames + 1 ∧
    (fetchResourceFile locEnvOk "r1"
        (some { rEx with path := some (newFilePathOf locEnvOk "r1" (some rEx)) })
        (fetchResourceFile locEnvOk "r1" (some rEx) eEx).2).2.renames
      = eEx.renames + 1 := by
  have h := claim6_theorem locEnvOk "r1" rEx eEx "DATA"
    (fun a b => rfl) (fun a b => rfl) rfl rfl
    (by decide) (by decide) (by decide) (by decide) (by decide)
  exact ⟨h.1, h.2.1, h.2.2.2.2⟩

end Breakwind
